import Mathlib

/-!
# Verification of the Scorito Klassiekers 2026 core

A shallow embedding of the scoring model, roster selector and captaincy
strategist of `optimizer.py` / `pcs_scraper.py`, together with theorems
settling the specification's claims about them.

Conventions of the embedding:
* Python floats are modelled as exact rationals (`ℚ`); all constants of the
  source (`0.7`, `0.35`, ...) are small decimals that the source combines in
  ways whose IEEE results coincide with the exact rational results.
* A pandas `DataFrame` of riders is a `List Rider`; a row is a `Rider`.
* The CBC integer-programming solve in `optimize_team` is modelled by exact
  maximization over all 0/1 assignments to the per-row decision variables
  (a feasible assignment of maximal objective when one exists); when no
  feasible assignment exists the solver assigns no variable the value 1, so
  the extraction step of the source yields an empty selection.
-/

/-- The seven Scorito quality dimensions (`q_*` columns of the rider table). -/
inductive Quality
  | gc
  | climb
  | tt
  | sprint
  | punch
  | hill
  | cobbles
deriving DecidableEq, Repr

/-- The 17 races of the 2026 classics catalog (keys of `RACE_DISPLAY_NAMES`
and `RACE_QUALITY_MAP` in `pcs_scraper.py`). -/
inductive Race
  | omloop
  | kuurne
  | parisNice
  | tirreno
  | stradeBianche
  | milanoSanremo
  | brugge
  | e3
  | gentWevelgem
  | dwars
  | rondeVanVlaanderen
  | scheldeprijs
  | parisRoubaix
  | brabantsePijl
  | amstel
  | flecheWallonne
  | luik
deriving DecidableEq, Repr

/-- `RACE_DISPLAY_NAMES` of `pcs_scraper.py`: insertion-ordered dict from race
short code to display name.  Iteration over the dict yields the keys in this
order. -/
def RACE_DISPLAY_NAMES : List (Race × String) :=
  [(.omloop, "Omloop Het Nieuwsblad"),
   (.kuurne, "Kuurne-Brussel-Kuurne"),
   (.parisNice, "Paris-Nice"),
   (.tirreno, "Tirreno-Adriatico"),
   (.stradeBianche, "Strade Bianche"),
   (.milanoSanremo, "Milano-Sanremo"),
   (.brugge, "Ronde van Brugge"),
   (.e3, "E3 Saxo Classic"),
   (.gentWevelgem, "Gent-Wevelgem"),
   (.dwars, "Dwars door Vlaanderen"),
   (.rondeVanVlaanderen, "Ronde van Vlaanderen"),
   (.scheldeprijs, "Scheldeprijs"),
   (.parisRoubaix, "Paris-Roubaix"),
   (.brabantsePijl, "Brabantse Pijl"),
   (.amstel, "Amstel Gold Race"),
   (.flecheWallonne, "Waalse Pijl"),
   (.luik, "Luik-Bastenaken-Luik")]

/-- The event catalog in iteration order: the keys of `RACE_DISPLAY_NAMES`. -/
def raceCatalog : List Race := RACE_DISPLAY_NAMES.map Prod.fst

/-- One entry of `RACE_QUALITY_MAP`: primary quality dimension, optional
secondary dimension, and race-importance weight. -/
structure RaceProfile where
  primary : Quality
  secondary : Option Quality
  weight : ℚ
deriving DecidableEq, Repr

/-- `RACE_QUALITY_MAP` of `pcs_scraper.py`.  Every race of the catalog has an
entry, so the `if not mapping` early-return of `calculate_race_score` is
unreachable for catalog races and the `.get("weight", 0.5)` default is never
used. -/
def RACE_QUALITY_MAP : Race → RaceProfile
  | .omloop => ⟨.cobbles, some .hill, 7/10⟩
  | .kuurne => ⟨.sprint, some .cobbles, 6/10⟩
  | .parisNice => ⟨.gc, some .climb, 3/10⟩
  | .tirreno => ⟨.gc, some .climb, 3/10⟩
  | .stradeBianche => ⟨.hill, some .punch, 7/10⟩
  | .milanoSanremo => ⟨.sprint, some .punch, 6/10⟩
  | .brugge => ⟨.sprint, some .cobbles, 4/10⟩
  | .e3 => ⟨.cobbles, some .hill, 7/10⟩
  | .gentWevelgem => ⟨.sprint, some .cobbles, 6/10⟩
  | .dwars => ⟨.cobbles, some .hill, 6/10⟩
  | .rondeVanVlaanderen => ⟨.cobbles, some .hill, 9/10⟩
  | .scheldeprijs => ⟨.sprint, none, 5/10⟩
  | .parisRoubaix => ⟨.cobbles, none, 9/10⟩
  | .brabantsePijl => ⟨.hill, some .punch, 5/10⟩
  | .amstel => ⟨.hill, some .punch, 7/10⟩
  | .flecheWallonne => ⟨.punch, some .climb, 7/10⟩
  | .luik => ⟨.punch, some .climb, 8/10⟩

/-- `KOPMAN_MULTIPLIERS` of `pcs_scraper.py`: the dict `{1: 3.0, 2: 2.5, 3: 2.0}`.
The source only ever looks up the keys 1, 2, 3 (the captaincy loop breaks at
index 3); other ranks would raise `KeyError` and are mapped to an arbitrary
value here, never used. -/
def KOPMAN_MULTIPLIERS : Nat → ℚ
  | 1 => 3
  | 2 => 5/2
  | 3 => 2
  | _ => 0

/-- A row of the rider table built by `load_enriched_data` in
`pcs_scraper.py`: identity, price (integer currency units), the seven quality
columns, the per-race participation flags (modelled as the set of races whose
`race_*` flag is `True`), and the `Races` count column `num_races`.
Columns irrelevant to the core claims (team, type, short name) are omitted. -/
structure Rider where
  market_rider_id : Int
  name : String
  price : Int
  q_gc : ℚ
  q_climb : ℚ
  q_tt : ℚ
  q_sprint : ℚ
  q_punch : ℚ
  q_hill : ℚ
  q_cobbles : ℚ
  races : List Race
  num_races : Nat
deriving DecidableEq, Repr

/-- `row[f"q_{name}"]`: the quality column addressed by dimension name. -/
def Rider.q (r : Rider) : Quality → ℚ
  | .gc => r.q_gc
  | .climb => r.q_climb
  | .tt => r.q_tt
  | .sprint => r.q_sprint
  | .punch => r.q_punch
  | .hill => r.q_hill
  | .cobbles => r.q_cobbles

/-- `row.get(f"race_{race}", False)`: the boolean participation flag. -/
def Rider.race (r : Rider) (e : Race) : Bool := decide (e ∈ r.races)

/-- `price_m` column of `load_enriched_data`: price in millions. -/
def Rider.price_m (r : Rider) : ℚ := (r.price : ℚ) / 1000000

/-- `calculate_race_score` of `optimizer.py`: 0 if the rider does not
participate; otherwise the primary/secondary weighted quality scaled by the
race-importance weight. -/
def calculate_race_score (row : Rider) (race : Race) : ℚ :=
  if row.race race then
    let mapping := RACE_QUALITY_MAP race
    let primary_score := row.q mapping.primary
    let secondary_score := match mapping.secondary with
      | some s => row.q s
      | none => 0
    let quality_score := primary_score * (7/10) + secondary_score * (3/10)
    quality_score * mapping.weight
  else 0

/-- `calculate_expected_points` of `optimizer.py`: the five-tier mapping from
race score to expected Scorito points (average points if scoring times
probability of scoring). -/
def calculate_expected_points (row : Rider) (race : Race) : ℚ :=
  let score := calculate_race_score row race
  if score ≤ 0 then 0
  else if 7 ≤ score then 40 * (7/10)
  else if 5 ≤ score then 30 * (5/10)
  else if 3 ≤ score then 20 * (35/100)
  else if 3/2 ≤ score then 10 * (2/10)
  else 5 * (1/10)

/-- `calculate_total_expected_points` of `optimizer.py`: running total over
the races of the catalog. -/
def calculate_total_expected_points (row : Rider) : ℚ :=
  raceCatalog.foldl (fun total race => total + calculate_expected_points row race) 0

/-- `calculate_value_score` of `optimizer.py`: expected points per million
spent, 0 when the price (hence `price_m`) is not positive. -/
def calculate_value_score (row : Rider) : ℚ :=
  if 0 < row.price_m then calculate_total_expected_points row / row.price_m
  else 0

/-- The objective of the ILP: each selected rider contributes its
`exp_total` column, which is the sum of the per-race `exp_*` columns, that
is, `calculate_total_expected_points`. -/
def teamObj (S : List Rider) : ℚ := (S.map calculate_total_expected_points).sum

/-- The price of a selection: the budget constraint's left-hand side. -/
def teamPrice (S : List Rider) : Int := (S.map Rider.price).sum

/-- One step of the locked-in add-back loop of `optimize_team`
(`optimizer.py` lines 147-150): if no current candidate row carries the id,
append the rows of `df` that do. -/
def poolStep (df : List Rider) (cands : List Rider) (rid : Int) : List Rider :=
  if cands.any (fun r => r.market_rider_id == rid) then cands
  else cands ++ df.filter (fun r => r.market_rider_id == rid)

/-- The candidate pool of `optimize_team`: riders with at least one race,
plus the locked-in riders added back (`optimizer.py` lines 143-152). -/
def selectionPool (df : List Rider) (locked_in : List Int) : List Rider :=
  locked_in.foldl (poolStep df) (df.filter (fun r => 0 < r.num_races))

/-- `candidates[candidates["market_rider_id"] == rid].index[0]`: the index of
the first candidate row carrying the id, if any (`optimizer.py` lines
176 and 182). -/
def lockIdx (cands : List Rider) (rid : Int) : Option Nat :=
  (cands.enum.find? (fun p => p.2.market_rider_id == rid)).map Prod.fst

/-- The constraint set of the ILP of `optimize_team` on a 0/1 assignment,
represented as the sublist of selected `(index, rider)` pairs of
`cands.enum`: team size is exact, price is within budget, the first row
carrying each locked-in id is selected, the first row carrying each
locked-out id is not.  Ids without a matching row add no constraint. -/
def selFeasible (cands : List Rider) (budget : Int) (team_size : Nat)
    (locked_in locked_out : List Int) (S : List (Nat × Rider)) : Bool :=
  S.length == team_size
  && decide (teamPrice (S.map Prod.snd) ≤ budget)
  && locked_in.all (fun rid =>
      match lockIdx cands rid with
      | some i => S.any (fun p => p.1 == i)
      | none => true)
  && locked_out.all (fun rid =>
      match lockIdx cands rid with
      | some i => S.all (fun p => p.1 != i)
      | none => true)

/-- An optimal element of a list under an objective, if the list is
nonempty.  This models the exact CBC solve: among the feasible 0/1
assignments it returns one of maximal objective (which optimum is returned
under ties is unspecified in the source and irrelevant to the claims). -/
def pickBest {α : Type} (obj : α → ℚ) : List α → Option α
  | [] => none
  | x :: xs =>
    match pickBest obj xs with
    | none => some x
    | some y => if obj x < obj y then some y else some x

/-- The solve-and-extract step of `optimize_team` (`optimizer.py` lines
154-192): maximize the total expected points over the feasible assignments;
when no feasible assignment exists CBC sets no variable to 1 and the
extraction `[i for i in range(n) if select[i].varValue == 1]` yields the
empty selection. -/
def solveTeam (cands : List Rider) (budget : Int) (team_size : Nat)
    (locked_in locked_out : List Int) : List Rider :=
  match pickBest (fun S => teamObj (S.map Prod.snd))
      (cands.enum.sublists.filter
        (selFeasible cands budget team_size locked_in locked_out)) with
  | some S => S.map Prod.snd
  | none => []

/-- `team.sort_values("exp_total", ascending=False)`: sort descending by a
rational key (tie order is unspecified in the source). -/
def sortDesc (f : Rider → ℚ) (l : List Rider) : List Rider :=
  List.insertionSort (fun a b => f b ≤ f a) l

/-- `optimize_team` of `optimizer.py`: build the candidate pool, solve the
ILP, and return the selected riders sorted by descending expected points. -/
def optimize_team (df : List Rider) (budget : Int) (team_size : Nat)
    (locked_in locked_out : List Int) : List Rider :=
  sortDesc calculate_total_expected_points
    (solveTeam (selectionPool df locked_in) budget team_size locked_in locked_out)

/-- A feasible roster for a selection request, as the specification states
it: a subset of the candidate pool of the right size, within budget, with
every forced-include id present and no forced-exclude id present. -/
def FeasibleTeam (pool : List Rider) (budget : Int) (team_size : Nat)
    (locked_in locked_out : List Int) (S : List Rider) : Prop :=
  S.Sublist pool ∧ S.length = team_size ∧ teamPrice S ≤ budget
  ∧ (∀ rid ∈ locked_in, ∃ r ∈ S, r.market_rider_id = rid)
  ∧ (∀ rid ∈ locked_out, ∀ r ∈ S, r.market_rider_id ≠ rid)

/-- An entry of the per-race kopman assignment built by
`calculate_kopman_strategy`. -/
structure KopmanEntry where
  rank : Nat
  name : String
  market_rider_id : Int
  multiplier : ℚ
  base_points : ℚ
  boosted_points : ℚ
deriving DecidableEq, Repr

/-- The first loop of the per-race body of `calculate_kopman_strategy`
(`optimizer.py` lines 223-237): the first three riders of the sorted list
get rank `i + 1`, the dict multiplier for their rank, and boosted points
`base * multiplier`. -/
def kopmanTop (race : Race) (sorted : List Rider) : List KopmanEntry :=
  (sorted.take 3).enum.map (fun p =>
    { rank := p.1 + 1, name := p.2.name, market_rider_id := p.2.market_rider_id,
      multiplier := KOPMAN_MULTIPLIERS (p.1 + 1),
      base_points := calculate_expected_points p.2 race,
      boosted_points := calculate_expected_points p.2 race * KOPMAN_MULTIPLIERS (p.1 + 1) })

/-- The second loop of the per-race body (`optimizer.py` lines 240-251): the
riders beyond the first three keep their global enumeration rank `i + 1`
(that is, position-in-the-drop plus 4) and multiplier 1. -/
def kopmanRest (race : Race) (sorted : List Rider) : List KopmanEntry :=
  (sorted.drop 3).enum.map (fun p =>
    { rank := p.1 + 3 + 1, name := p.2.name, market_rider_id := p.2.market_rider_id,
      multiplier := 1,
      base_points := calculate_expected_points p.2 race,
      boosted_points := calculate_expected_points p.2 race })

/-- The per-race body of `calculate_kopman_strategy` (`optimizer.py` lines
209-253): filter the roster to the riders racing this event; if none the
assignment is the empty list; otherwise sort by the event's expected points
descending and concatenate the two enumeration loops. -/
def calculate_kopman_strategy_race (team : List Rider) (race : Race) :
    List KopmanEntry :=
  let racing := team.filter (fun r => r.race race)
  if racing.isEmpty then []
  else
    let sorted := sortDesc (fun r => calculate_expected_points r race) racing
    kopmanTop race sorted ++ kopmanRest race sorted

/-- `calculate_kopman_strategy` of `optimizer.py`: the per-race assignments
in catalog order (`strategy` dict keyed by race). -/
def calculate_kopman_strategy (team : List Rider) :
    List (Race × List KopmanEntry) :=
  raceCatalog.map (fun race => (race, calculate_kopman_strategy_race team race))

/-- `calculate_team_total_with_kopmannen` of `optimizer.py`: sum of every
entry's boosted points over every race of the strategy. -/
def calculate_team_total_with_kopmannen
    (strategy : List (Race × List KopmanEntry)) : ℚ :=
  (strategy.map (fun p => (p.2.map KopmanEntry.boosted_points).sum)).sum

/-- A rider whose only participation is the Ronde van Vlaanderen, with
cobbles and hill quality 10: its race score is 9, outside `[0, 7]`. -/
def riderCobbled : Rider :=
  { market_rider_id := 1, name := "Cobbles", price := 1000000,
    q_gc := 0, q_climb := 0, q_tt := 0, q_sprint := 0, q_punch := 0,
    q_hill := 10, q_cobbles := 10,
    races := [.rondeVanVlaanderen], num_races := 1 }

/-- A rider with one race on the books but participating in no event. -/
def riderA : Rider :=
  { market_rider_id := 101, name := "A", price := 10000000,
    q_gc := 0, q_climb := 0, q_tt := 0, q_sprint := 0, q_punch := 0,
    q_hill := 0, q_cobbles := 0, races := [], num_races := 1 }

/-- A second such rider, with a different id and price. -/
def riderB : Rider :=
  { market_rider_id := 102, name := "B", price := 12000000,
    q_gc := 0, q_climb := 0, q_tt := 0, q_sprint := 0, q_punch := 0,
    q_hill := 0, q_cobbles := 0, races := [], num_races := 1 }

/-- A rider riding Paris-Roubaix with top cobbles quality. -/
def riderP : Rider :=
  { market_rider_id := 301, name := "P", price := 20000000,
    q_gc := 0, q_climb := 0, q_tt := 0, q_sprint := 0, q_punch := 0,
    q_hill := 0, q_cobbles := 10, races := [.parisRoubaix], num_races := 1 }

/-- A rider with zero races and zero participations. -/
def riderZ : Rider :=
  { market_rider_id := 201, name := "Z", price := 5000000,
    q_gc := 0, q_climb := 0, q_tt := 0, q_sprint := 0, q_punch := 0,
    q_hill := 0, q_cobbles := 0, races := [], num_races := 0 }

/-- A rider with price 0, exercising the division guard. -/
def riderFree : Rider :=
  { market_rider_id := 401, name := "F", price := 0,
    q_gc := 0, q_climb := 0, q_tt := 0, q_sprint := 0, q_punch := 0,
    q_hill := 0, q_cobbles := 0, races := [], num_races := 0 }

/-- A two-rider table used for concrete selection runs. -/
def dfTwo : List Rider := [riderA, riderB]

/-- A two-rider table with one scoring rider, for the optimality witness. -/
def dfW : List Rider := [riderP, riderA]

/-- Folding `+ f x` over a list starting from `init` is `init` plus the sum of
the mapped list (the loop shape of `calculate_total_expected_points`). -/
theorem foldl_add_eq_sum {α : Type} (f : α → ℚ) (l : List α) (init : ℚ) :
    l.foldl (fun total x => total + f x) init = init + (l.map f).sum := by
  induction l generalizing init with
  | nil => simp
  | cons x xs ih => simp [ih, add_assoc]

/-- A rider participating in no race has race score 0 for every race. -/
theorem race_score_of_no_races {r : Rider} (h : r.races = []) (race : Race) :
    calculate_race_score r race = 0 := by
  unfold calculate_race_score
  have : r.race race = false := by simp [Rider.race, h]
  simp [this]

/-- Each per-race expected-points value is one of the six tier constants. -/
theorem expected_points_mem_tiers (row : Rider) (race : Race) :
    calculate_expected_points row race ∈ ([0, 28, 15, 7, 2, 1/2] : List ℚ) := by
  unfold calculate_expected_points
  simp only []
  split_ifs <;> norm_num

/-- When the rider participates, `calculate_race_score` is the weighted
primary/secondary quality scaled by the race weight. -/
theorem calculate_race_score_formula {row : Rider} {race : Race}
    (hr : row.race race = true) :
    calculate_race_score row race
      = (row.q (RACE_QUALITY_MAP race).primary * (7/10)
          + (match (RACE_QUALITY_MAP race).secondary with
             | some s => row.q s
             | none => 0) * (3/10)) * (RACE_QUALITY_MAP race).weight := by
  unfold calculate_race_score
  simp [hr]

/-- When the rider does not participate, `calculate_race_score` is 0. -/
theorem calculate_race_score_of_not_racing {row : Rider} {race : Race}
    (hr : row.race race = false) :
    calculate_race_score row race = 0 := by
  unfold calculate_race_score
  simp [hr]

/-- Auxiliary bound: the weighted quality times a weight in `[0, 9/10]` stays
in `[0, 9]` when both quality inputs are in `[0, 10]`. -/
theorem score_bound_aux {p s w : ℚ} (hp0 : 0 ≤ p) (hp1 : p ≤ 10) (hs0 : 0 ≤ s)
    (hs1 : s ≤ 10) (hw0 : 0 ≤ w) (hw1 : w ≤ 9/10) :
    0 ≤ (p * (7/10) + s * (3/10)) * w ∧ (p * (7/10) + s * (3/10)) * w ≤ 9 := by
  have hq0 : 0 ≤ p * (7/10) + s * (3/10) := by nlinarith
  have hq1 : p * (7/10) + s * (3/10) ≤ 10 := by nlinarith
  constructor
  · exact mul_nonneg hq0 hw0
  · nlinarith

/-- Every catalog race weight lies in `[0, 9/10]`. -/
theorem weight_bounds (race : Race) :
    0 ≤ (RACE_QUALITY_MAP race).weight ∧ (RACE_QUALITY_MAP race).weight ≤ 9/10 := by
  cases race <;> norm_num [RACE_QUALITY_MAP]

/-- C3: per-event projected points.  If the competitor does not participate
the points are 0; otherwise the race score is the weighted quality formula
(secondary contributing 0 when absent) scaled by the event weight, and the
projected points follow the five-tier step function with values exactly
28, 15, 7, 2, 1/2 and 0 on the stated race-score ranges. -/
theorem calculate_expected_points_tiers (row : Rider) (race : Race) :
    (row.race race = false → calculate_expected_points row race = 0)
    ∧ (row.race race = true →
        calculate_race_score row race
            = (row.q (RACE_QUALITY_MAP race).primary * (7/10)
                + (match (RACE_QUALITY_MAP race).secondary with
                   | some s => row.q s
                   | none => 0) * (3/10)) * (RACE_QUALITY_MAP race).weight
          ∧ (7 ≤ calculate_race_score row race →
              calculate_expected_points row race = 28)
          ∧ (5 ≤ calculate_race_score row race → calculate_race_score row race < 7 →
              calculate_expected_points row race = 15)
          ∧ (3 ≤ calculate_race_score row race → calculate_race_score row race < 5 →
              calculate_expected_points row race = 7)
          ∧ (3/2 ≤ calculate_race_score row race → calculate_race_score row race < 3 →
              calculate_expected_points row race = 2)
          ∧ (0 < calculate_race_score row race → calculate_race_score row race < 3/2 →
              calculate_expected_points row race = 1/2)
          ∧ (calculate_race_score row race = 0 →
              calculate_expected_points row race = 0)) := by
  constructor
  · intro hr
    simp only [calculate_expected_points, calculate_race_score_of_not_racing hr]
    norm_num
  · intro hr
    refine ⟨calculate_race_score_formula hr, ?_, ?_, ?_, ?_, ?_, ?_⟩ <;>
      · intros
        simp only [calculate_expected_points]
        split_ifs <;> first | (exfalso; linarith) | norm_num

/-- C4 counterexample: with catalog weights up to 0.9 the race score can
reach 9, so it is not bounded by 7. -/
theorem calculate_race_score_exceeds_seven :
    calculate_race_score riderCobbled .rondeVanVlaanderen = 9
    ∧ ¬ (calculate_race_score riderCobbled .rondeVanVlaanderen ≤ 7) := by
  have hr : riderCobbled.race .rondeVanVlaanderen = true := by
    simp [Rider.race, riderCobbled]
  have h9 : calculate_race_score riderCobbled .rondeVanVlaanderen = 9 := by
    rw [calculate_race_score_formula hr]
    norm_num [RACE_QUALITY_MAP, Rider.q, riderCobbled]
  exact ⟨h9, by rw [h9]; norm_num⟩

/-- C4 (amended): for quality values in `[0, 10]` and catalog weights
(all at most 0.9), the race score lies in `[0, 9]`. -/
theorem calculate_race_score_bounds (row : Rider) (race : Race)
    (h : ∀ q : Quality, 0 ≤ row.q q ∧ row.q q ≤ 10) :
    0 ≤ calculate_race_score row race ∧ calculate_race_score row race ≤ 9 := by
  cases hr : row.race race with
  | false =>
    rw [calculate_race_score_of_not_racing hr]
    norm_num
  | true =>
    rw [calculate_race_score_formula hr]
    have hsec : 0 ≤ (match (RACE_QUALITY_MAP race).secondary with
        | some s => row.q s
        | none => 0)
        ∧ (match (RACE_QUALITY_MAP race).secondary with
           | some s => row.q s
           | none => 0) ≤ 10 := by
      cases (RACE_QUALITY_MAP race).secondary with
      | some s => exact h s
      | none => norm_num
    exact score_bound_aux (h _).1 (h _).2 hsec.1 hsec.2
      (weight_bounds race).1 (weight_bounds race).2

/-- C4 witness: the amended bound applied to a concrete rider. -/
theorem calculate_race_score_bounds_witness :
    (∀ q : Quality, 0 ≤ riderCobbled.q q ∧ riderCobbled.q q ≤ 10)
    ∧ (0 ≤ calculate_race_score riderCobbled .rondeVanVlaanderen
        ∧ calculate_race_score riderCobbled .rondeVanVlaanderen ≤ 9) := by
  have hq : ∀ q : Quality, 0 ≤ riderCobbled.q q ∧ riderCobbled.q q ≤ 10 := by
    intro q; cases q <;> norm_num [Rider.q, riderCobbled]
  exact ⟨hq, calculate_race_score_bounds riderCobbled .rondeVanVlaanderen hq⟩

/-- C5: every per-event projected-points value lies in `[0, 28]`, and the
total projected points are exactly the sum of the per-event values over the
full catalog. -/
theorem expected_points_bounds_and_total_sum (row : Rider) :
    (∀ race : Race, 0 ≤ calculate_expected_points row race
        ∧ calculate_expected_points row race ≤ 28)
    ∧ calculate_total_expected_points row
        = (raceCatalog.map (calculate_expected_points row)).sum := by
  constructor
  · intro race
    simp only [calculate_expected_points]
    split_ifs <;> norm_num
  · unfold calculate_total_expected_points
    rw [foldl_add_eq_sum]
    simp

/-- C9: the value score is the total projected points divided by the price in
millions when the price is positive, and 0 when the price is 0; the function
is total (never raises, never divides by zero). -/
theorem calculate_value_score_spec (row : Rider) :
    (0 < row.price → calculate_value_score row
        = calculate_total_expected_points row / row.price_m)
    ∧ (row.price = 0 → calculate_value_score row = 0) := by
  constructor
  · intro h
    have hm : 0 < row.price_m := by
      unfold Rider.price_m
      positivity
    simp [calculate_value_score, hm]
  · intro h
    simp [calculate_value_score, Rider.price_m, h]

/-- `pickBest` returns an element of its input list. -/
theorem pickBest_mem {α : Type} {obj : α → ℚ} :
    ∀ {l : List α} {x : α}, pickBest obj l = some x → x ∈ l := by
  intro l
  induction l with
  | nil => intro x h; simp [pickBest] at h
  | cons a as ih =>
    intro x h
    simp only [pickBest] at h
    cases hp : pickBest obj as with
    | none => rw [hp] at h; simp at h; simp [h]
    | some y =>
      rw [hp] at h
      simp only at h
      split_ifs at h with hlt
      · simp at h; exact List.mem_cons_of_mem _ (ih (h ▸ hp))
      · simp at h; simp [h]

/-- `pickBest` only fails on the empty list. -/
theorem pickBest_eq_none {α : Type} {obj : α → ℚ} :
    ∀ {l : List α}, pickBest obj l = none → l = [] := by
  intro l h
  cases l with
  | nil => rfl
  | cons a as =>
    simp only [pickBest] at h
    cases hp : pickBest obj as with
    | none => rw [hp] at h; simp at h
    | some y =>
      rw [hp] at h
      by_cases hlt : obj a < obj y <;> simp [hlt] at h

/-- `pickBest` returns an element of maximal objective. -/
theorem pickBest_le {α : Type} {obj : α → ℚ} :
    ∀ {l : List α} {x : α}, pickBest obj l = some x → ∀ y ∈ l, obj y ≤ obj x := by
  intro l
  induction l with
  | nil => intro x h; simp [pickBest] at h
  | cons a as ih =>
    intro x h y hy
    simp only [pickBest] at h
    cases hp : pickBest obj as with
    | none =>
      rw [hp] at h
      simp at h
      have : as = [] := pickBest_eq_none hp
      subst this
      simp at hy
      simp [hy, h]
    | some z =>
      rw [hp] at h
      simp only at h
      rcases List.mem_cons.mp hy with rfl | hy'
      · split_ifs at h with hlt
        · simp at h; subst h; exact le_of_lt hlt
        · simp at h; subst h; exact le_refl _
      · have hz := ih hp y hy'
        split_ifs at h with hlt
        · simp at h; subst h; exact hz
        · simp at h; subst h; exact le_trans hz (not_lt.mp hlt)

/-- A sublist of `l` is the image of a sublist of `l.enumFrom n` under the
second projection. -/
theorem sublist_lift_enumFrom {S l : List Rider} (h : S.Sublist l) :
    ∀ n : Nat, ∃ T : List (Nat × Rider),
      T.Sublist (l.enumFrom n) ∧ T.map Prod.snd = S := by
  induction h with
  | slnil => exact fun n => ⟨[], List.nil_sublist _, rfl⟩
  | cons a h ih =>
    intro n
    obtain ⟨T, hT, hmap⟩ := ih (n + 1)
    exact ⟨T, hT.trans (List.sublist_cons_self _ _), hmap⟩
  | cons₂ a h ih =>
    intro n
    obtain ⟨T, hT, hmap⟩ := ih (n + 1)
    exact ⟨(n, a) :: T, hT.cons₂ _, by simp [hmap]⟩

/-- Two positions of a list whose rows carry the same id coincide when the
id column has no duplicates. -/
theorem nodup_map_index_inj {l : List Rider}
    (h : (l.map Rider.market_rider_id).Nodup) {i j : Nat} {c d : Rider}
    (hi : l[i]? = some c) (hj : l[j]? = some d)
    (hcd : c.market_rider_id = d.market_rider_id) : i = j := by
  rw [List.getElem?_eq_some] at hi hj
  obtain ⟨hi1, hi2⟩ := hi
  obtain ⟨hj1, hj2⟩ := hj
  have hi' : i < (l.map Rider.market_rider_id).length := by
    rw [List.length_map]
    exact hi1
  have hj' : j < (l.map Rider.market_rider_id).length := by
    rw [List.length_map]
    exact hj1
  have hij : (l.map Rider.market_rider_id)[i] = (l.map Rider.market_rider_id)[j] := by
    rw [List.getElem_map, List.getElem_map, hi2, hj2, hcd]
  exact h.getElem_inj_iff.mp hij

/-- A successful `lockIdx` names a row of the candidate list carrying the
target id. -/
theorem lockIdx_eq_some {cands : List Rider} {rid : Int} {i : Nat}
    (h : lockIdx cands rid = some i) :
    ∃ c, cands[i]? = some c ∧ c.market_rider_id = rid := by
  unfold lockIdx at h
  cases hf : cands.enum.find? (fun p => p.2.market_rider_id == rid) with
  | none => rw [hf] at h; simp at h
  | some p =>
    rw [hf] at h
    simp at h
    have hp := List.find?_some hf
    have hmem := List.mem_of_find?_eq_some hf
    have hget := List.mem_enum_iff_getElem?.mp hmem
    refine ⟨p.2, ?_, by simpa using hp⟩
    rw [← h]
    exact hget

/-- `lockIdx` succeeds whenever some candidate row carries the id. -/
theorem lockIdx_isSome_of_mem {cands : List Rider} {c : Rider} {rid : Int}
    (hc : c ∈ cands) (hid : c.market_rider_id = rid) :
    (lockIdx cands rid).isSome := by
  have hfind : (cands.enum.find? (fun p => p.2.market_rider_id == rid)).isSome := by
    rw [List.find?_isSome]
    obtain ⟨i, hi, hci⟩ := List.getElem_of_mem hc
    refine ⟨(i, c), ?_, by simp [hid]⟩
    exact List.mem_enum_iff_getElem?.mpr (by simp [hi, hci])
  unfold lockIdx
  cases hf : cands.enum.find? (fun p => p.2.market_rider_id == rid) with
  | none => rw [hf] at hfind; simp at hfind
  | some p => simp

/-- Membership after one add-back step: either already a candidate or a row
of `df` carrying the added id. -/
theorem mem_poolStep {df cands : List Rider} {rid : Int} {x : Rider}
    (h : x ∈ poolStep df cands rid) :
    x ∈ cands ∨ (x ∈ df ∧ x.market_rider_id = rid) := by
  unfold poolStep at h
  split at h
  · exact Or.inl h
  · rcases List.mem_append.mp h with h' | h'
    · exact Or.inl h'
    · have := List.mem_filter.mp h'
      exact Or.inr ⟨this.1, by simpa using this.2⟩

/-- One add-back step preserves candidates. -/
theorem poolStep_mono {df cands : List Rider} {rid : Int} {x : Rider}
    (h : x ∈ cands) : x ∈ poolStep df cands rid := by
  unfold poolStep
  split
  · exact h
  · exact List.mem_append_left _ h

/-- When no row of `df` carries the id, the add-back step is the identity. -/
theorem poolStep_unknown {df : List Rider} {rid : Int}
    (hdf : ∀ x ∈ df, x.market_rider_id ≠ rid) (cands : List Rider) :
    poolStep df cands rid = cands := by
  unfold poolStep
  split
  · rfl
  · rw [List.filter_eq_nil_iff.mpr (fun x hx => by simpa using hdf x hx)]
    simp

/-- Everything in the folded pool is either from the accumulator or a row of
`df` whose id occurs in the locked-in list. -/
theorem foldl_poolStep_mem {df : List Rider} :
    ∀ (li : List Int) (acc : List Rider) (x : Rider),
      x ∈ li.foldl (poolStep df) acc →
      x ∈ acc ∨ (x ∈ df ∧ x.market_rider_id ∈ li) := by
  intro li
  induction li with
  | nil => simp
  | cons rid rest ih =>
    intro acc x hx
    simp only [List.foldl_cons] at hx
    rcases ih _ x hx with h | ⟨h1, h2⟩
    · rcases mem_poolStep h with h' | ⟨hdf, hid⟩
      · exact Or.inl h'
      · exact Or.inr ⟨hdf, by simp [hid]⟩
    · exact Or.inr ⟨h1, List.mem_cons_of_mem _ h2⟩

/-- The add-back fold preserves accumulator membership. -/
theorem foldl_poolStep_mono {df : List Rider} :
    ∀ (li : List Int) (acc : List Rider) (x : Rider),
      x ∈ acc → x ∈ li.foldl (poolStep df) acc := by
  intro li
  induction li with
  | nil => simp
  | cons rid rest ih =>
    intro acc x hx
    simp only [List.foldl_cons]
    exact ih _ x (poolStep_mono hx)

/-- A row of `df` whose id occurs in the locked-in list ends up in the
folded pool, provided ids are unique and the accumulator holds rows of
`df`. -/
theorem foldl_poolStep_locked {df : List Rider}
    (hnd : (df.map Rider.market_rider_id).Nodup) :
    ∀ (li : List Int) (acc : List Rider), (∀ y ∈ acc, y ∈ df) →
      ∀ x ∈ df, x.market_rider_id ∈ li → x ∈ li.foldl (poolStep df) acc := by
  intro li
  induction li with
  | nil => intro acc hacc x hx hli; simp at hli
  | cons rid rest ih =>
    intro acc hacc x hx hli
    simp only [List.foldl_cons]
    have hacc' : ∀ y ∈ poolStep df acc rid, y ∈ df := by
      intro y hy
      rcases mem_poolStep hy with h | ⟨h, -⟩
      · exact hacc y h
      · exact h
    rcases List.mem_cons.mp hli with heq | hmem
    · apply foldl_poolStep_mono
      unfold poolStep
      split
      case isTrue hany =>
        obtain ⟨y, hy, hyid⟩ := List.any_eq_true.mp hany
        have hyid' : y.market_rider_id = x.market_rider_id := by
          rw [heq]; simpa using hyid
        have : y = x := List.inj_on_of_nodup_map hnd (hacc y hy) hx hyid'
        exact this ▸ hy
      case isFalse =>
        refine List.mem_append_right _ (List.mem_filter.mpr ⟨hx, by simp [heq]⟩)
    · exact ih _ hacc' x hx hmem

/-- The add-back fold preserves uniqueness of the id column. -/
theorem foldl_poolStep_nodup {df : List Rider}
    (hnd : (df.map Rider.market_rider_id).Nodup) :
    ∀ (li : List Int) (acc : List Rider),
      ((acc.map Rider.market_rider_id).Nodup) →
      (((li.foldl (poolStep df) acc).map Rider.market_rider_id).Nodup) := by
  intro li
  induction li with
  | nil => intro acc hacc; simpa using hacc
  | cons rid rest ih =>
    intro acc hacc
    simp only [List.foldl_cons]
    apply ih
    unfold poolStep
    split
    case isTrue => exact hacc
    case isFalse hany =>
      rw [List.map_append]
      apply List.Nodup.append hacc
      · exact hnd.sublist ((List.filter_sublist _).map _)
      · intro a ha hb
        obtain ⟨y, hy, hyid⟩ := List.mem_map.mp hb
        have : y.market_rider_id = rid := by
          simpa using (List.mem_filter.mp hy).2
        rw [← hyid, this] at ha
        obtain ⟨z, hz, hzid⟩ := List.mem_map.mp ha
        exact hany (List.any_eq_true.mpr ⟨z, hz, by simp [hzid]⟩)

/-- Rows of the candidate pool are rows of the table. -/
theorem selectionPool_subset {df : List Rider} {li : List Int} {x : Rider}
    (h : x ∈ selectionPool df li) : x ∈ df := by
  unfold selectionPool at h
  rcases foldl_poolStep_mem li _ x h with h' | ⟨h', -⟩
  · exact (List.mem_filter.mp h').1
  · exact h'

/-- The candidate pool inherits uniqueness of the id column. -/
theorem selectionPool_nodup {df : List Rider} {li : List Int}
    (hnd : (df.map Rider.market_rider_id).Nodup) :
    ((selectionPool df li).map Rider.market_rider_id).Nodup := by
  unfold selectionPool
  exact foldl_poolStep_nodup hnd li _ (hnd.sublist ((List.filter_sublist _).map _))

/-- A spec-level feasible roster lifts to a feasible 0/1 assignment over the
candidate rows with the same selected riders (ids being unique). -/
theorem feasible_lift {pool : List Rider} {budget : Int} {ts : Nat}
    {li lo : List Int} {S : List Rider}
    (hnd : (pool.map Rider.market_rider_id).Nodup)
    (hS : FeasibleTeam pool budget ts li lo S) :
    ∃ T ∈ pool.enum.sublists,
      selFeasible pool budget ts li lo T = true ∧ T.map Prod.snd = S := by
  obtain ⟨hsub, hlen, hprice, hin, hout⟩ := hS
  obtain ⟨T, hT, hmap⟩ := sublist_lift_enumFrom hsub 0
  have hTenum : T.Sublist pool.enum := hT
  refine ⟨T, List.mem_sublists.mpr hTenum, ?_, hmap⟩
  unfold selFeasible
  simp only [Bool.and_eq_true]
  refine ⟨⟨⟨?_, ?_⟩, ?_⟩, ?_⟩
  · have hTlen : T.length = ts := by
      rw [← hlen, ← hmap, List.length_map]
    simp [hTlen]
  · rw [hmap]
    simpa using hprice
  · rw [List.all_eq_true]
    intro rid hrid
    cases hidx : lockIdx pool rid with
    | none => simp
    | some i =>
      show (T.any fun p => p.1 == i) = true
      obtain ⟨c, hci, hcid⟩ := lockIdx_eq_some hidx
      obtain ⟨r, hrS, hradd⟩ := hin rid hrid
      rw [← hmap] at hrS
      obtain ⟨p, hpT, hpr⟩ := List.mem_map.mp hrS
      have hpget : pool[p.1]? = some p.2 :=
        List.mem_enum_iff_getElem?.mp (hTenum.subset hpT)
      have hpi : p.1 = i :=
        nodup_map_index_inj hnd hpget hci (by rw [hpr, hradd, hcid])
      rw [List.any_eq_true]
      exact ⟨p, hpT, by simp [hpi]⟩
  · rw [List.all_eq_true]
    intro rid hrid
    cases hidx : lockIdx pool rid with
    | none => simp
    | some i =>
      show (T.all fun p => p.1 != i) = true
      rw [List.all_eq_true]
      intro p hpT
      obtain ⟨c, hci, hcid⟩ := lockIdx_eq_some hidx
      have hpget : pool[p.1]? = some p.2 :=
        List.mem_enum_iff_getElem?.mp (hTenum.subset hpT)
      suffices hne : p.1 ≠ i by simpa using hne
      intro heq
      rw [heq, hci] at hpget
      have hpc : p.2 = c := (Option.some.inj hpget).symm
      have hmem : p.2 ∈ S := by
        rw [← hmap]; exact List.mem_map.mpr ⟨p, hpT, rfl⟩
      exact hout rid hrid p.2 hmem (by rw [hpc, hcid])

/-- A feasible 0/1 assignment yields a selection of the required size and
price that honours every lock whose id occurs in the pool. -/
theorem selFeasible_spec {pool : List Rider} {budget : Int} {ts : Nat}
    {li lo : List Int} {T : List (Nat × Rider)}
    (hnd : (pool.map Rider.market_rider_id).Nodup)
    (hT : T.Sublist pool.enum)
    (hf : selFeasible pool budget ts li lo T = true) :
    (T.map Prod.snd).length = ts
    ∧ teamPrice (T.map Prod.snd) ≤ budget
    ∧ (∀ rid ∈ li, rid ∈ pool.map Rider.market_rider_id →
        ∃ r ∈ T.map Prod.snd, r.market_rider_id = rid)
    ∧ (∀ rid ∈ lo, ∀ r ∈ T.map Prod.snd, r.market_rider_id ≠ rid) := by
  unfold selFeasible at hf
  simp only [Bool.and_eq_true] at hf
  obtain ⟨⟨⟨h1, h2⟩, h3⟩, h4⟩ := hf
  refine ⟨?_, ?_, ?_, ?_⟩
  · rw [List.length_map]
    simpa using h1
  · simpa using h2
  · intro rid hrid hpool
    obtain ⟨c, hc, hcid⟩ := List.mem_map.mp hpool
    have hsome := lockIdx_isSome_of_mem hc hcid
    cases hidx : lockIdx pool rid with
    | none => rw [hidx] at hsome; simp at hsome
    | some i =>
      have h3' := List.all_eq_true.mp h3 rid hrid
      rw [hidx] at h3'
      obtain ⟨p, hpT, hpi⟩ := List.any_eq_true.mp h3'
      obtain ⟨d, hdi, hdid⟩ := lockIdx_eq_some hidx
      have hpget : pool[p.1]? = some p.2 :=
        List.mem_enum_iff_getElem?.mp (hT.subset hpT)
      have hpi' : p.1 = i := by simpa using hpi
      rw [hpi', hdi] at hpget
      have hpd : p.2 = d := (Option.some.inj hpget).symm
      exact ⟨p.2, List.mem_map.mpr ⟨p, hpT, rfl⟩, by rw [hpd, hdid]⟩
  · intro rid hrid r hr hrid'
    obtain ⟨p, hpT, hpr⟩ := List.mem_map.mp hr
    have hpget : pool[p.1]? = some p.2 :=
      List.mem_enum_iff_getElem?.mp (hT.subset hpT)
    have hrpool : r ∈ pool := by
      rw [← hpr]
      obtain ⟨hlt, heq⟩ := List.getElem?_eq_some.mp hpget
      exact heq ▸ List.getElem_mem hlt
    have hsome := lockIdx_isSome_of_mem hrpool hrid'
    cases hidx : lockIdx pool rid with
    | none => rw [hidx] at hsome; simp at hsome
    | some i =>
      have h4' := List.all_eq_true.mp h4 rid hrid
      rw [hidx] at h4'
      have hall := List.all_eq_true.mp h4' p hpT
      obtain ⟨d, hdi, hdid⟩ := lockIdx_eq_some hidx
      have hpi : p.1 = i :=
        nodup_map_index_inj hnd hpget hdi (by rw [hpr, hrid', hdid])
      simp [hpi] at hall

/-- C1: for every feasible selection request (unique-id candidate table,
budget, team size, lock sets admitting at least one feasible roster over the
filtered candidate pool), the roster returned by `optimize_team` has exactly
`team_size` members, costs at most `budget`, contains every forced-include
id, contains no forced-exclude id, and no feasible roster of the same size
within budget respecting the locks has strictly greater total projected
points. -/
theorem optimize_team_optimal (df : List Rider) (budget : Int) (ts : Nat)
    (li lo : List Int)
    (hnd : (df.map Rider.market_rider_id).Nodup)
    (hfeas : ∃ S, FeasibleTeam (selectionPool df li) budget ts li lo S) :
    (optimize_team df budget ts li lo).length = ts
    ∧ teamPrice (optimize_team df budget ts li lo) ≤ budget
    ∧ (∀ rid ∈ li, ∃ r ∈ optimize_team df budget ts li lo,
        r.market_rider_id = rid)
    ∧ (∀ rid ∈ lo, ∀ r ∈ optimize_team df budget ts li lo,
        r.market_rider_id ≠ rid)
    ∧ (∀ S, FeasibleTeam (selectionPool df li) budget ts li lo S →
        teamObj S ≤ teamObj (optimize_team df budget ts li lo)) := by
  obtain ⟨S0, hS0⟩ := hfeas
  have hpnd : ((selectionPool df li).map Rider.market_rider_id).Nodup :=
    selectionPool_nodup hnd
  obtain ⟨T0, hT0mem, hT0feas, hT0map⟩ := feasible_lift hpnd hS0
  set pool := selectionPool df li with hpool
  set flist := pool.enum.sublists.filter (selFeasible pool budget ts li lo)
    with hflist
  have hT0f : T0 ∈ flist := List.mem_filter.mpr ⟨hT0mem, hT0feas⟩
  cases hpb : pickBest (fun T => teamObj (T.map Prod.snd)) flist with
  | none =>
    have hnil := pickBest_eq_none hpb
    rw [hnil] at hT0f
    simp at hT0f
  | some Tb =>
    have hTbf := pickBest_mem hpb
    have hTbmem := (List.mem_filter.mp hTbf).1
    have hTbfeas := (List.mem_filter.mp hTbf).2
    have hTbsub : Tb.Sublist pool.enum := List.mem_sublists.mp hTbmem
    obtain ⟨hl, hp, hi, ho⟩ := selFeasible_spec hpnd hTbsub hTbfeas
    have hopt : optimize_team df budget ts li lo
        = sortDesc calculate_total_expected_points (Tb.map Prod.snd) := by
      unfold optimize_team solveTeam
      rw [← hpool, ← hflist, hpb]
    have hperm : (optimize_team df budget ts li lo).Perm (Tb.map Prod.snd) := by
      rw [hopt]
      exact List.perm_insertionSort _ _
    refine ⟨?_, ?_, ?_, ?_, ?_⟩
    · rw [hperm.length_eq]
      exact hl
    · have hpr : teamPrice (optimize_team df budget ts li lo)
          = teamPrice (Tb.map Prod.snd) := by
        unfold teamPrice
        exact (hperm.map _).sum_eq
      rw [hpr]
      exact hp
    · intro rid hrid
      have hpoolmem : rid ∈ pool.map Rider.market_rider_id := by
        obtain ⟨r, hrS, hradd⟩ := hS0.2.2.2.1 rid hrid
        exact List.mem_map.mpr ⟨r, hS0.1.subset hrS, hradd⟩
      obtain ⟨r, hrM, hradd⟩ := hi rid hrid hpoolmem
      exact ⟨r, hperm.mem_iff.mpr hrM, hradd⟩
    · intro rid hrid r hr
      exact ho rid hrid r (hperm.mem_iff.mp hr)
    · intro S hS
      obtain ⟨T, hTmem, hTfeas, hTmap⟩ := feasible_lift hpnd hS
      have hTf : T ∈ flist := List.mem_filter.mpr ⟨hTmem, hTfeas⟩
      have hle := pickBest_le hpb T hTf
      have hobj : teamObj (optimize_team df budget ts li lo)
          = teamObj (Tb.map Prod.snd) := by
        unfold teamObj
        exact (hperm.map _).sum_eq
      rw [hobj, ← hTmap]
      exact hle

/-- A rider participating in no race has zero total projected points. -/
theorem total_expected_points_of_no_races {r : Rider} (h : r.races = []) :
    calculate_total_expected_points r = 0 := by
  unfold calculate_total_expected_points
  rw [foldl_add_eq_sum, zero_add]
  apply List.sum_eq_zero
  intro x hx
  obtain ⟨race, -, hrace⟩ := List.mem_map.mp hx
  rw [← hrace]
  simp only [calculate_expected_points, race_score_of_no_races h race]
  norm_num

/-- C2 (amended): when the solver constraints admit no nonempty feasible
assignment over the filtered pool (covering contradictory locks on present
ids, oversized or unaffordable forced-include sets, `team_size = 0`, an
empty pool, and budgets no roster fits), `optimize_team` raises no
Infeasible-Selection error: it silently returns the empty roster. -/
theorem optimize_team_infeasible_returns_empty (df : List Rider)
    (budget : Int) (ts : Nat) (li lo : List Int)
    (h : ∀ T ∈ (selectionPool df li).enum.sublists,
        selFeasible (selectionPool df li) budget ts li lo T = true → T = []) :
    optimize_team df budget ts li lo = [] := by
  unfold optimize_team solveTeam
  cases hpb : pickBest (fun T => teamObj (T.map Prod.snd))
      ((selectionPool df li).enum.sublists.filter
        (selFeasible (selectionPool df li) budget ts li lo)) with
  | none => rfl
  | some T =>
    have hTf := pickBest_mem hpb
    have hmem := (List.mem_filter.mp hTf).1
    have hfeas := (List.mem_filter.mp hTf).2
    have hnil := h T hmem hfeas
    subst hnil
    rfl

/-- C2 counterexample: with the same unknown id 999 forced in and out no
feasible roster exists (the claim's contradictory-locks scenario), yet
`optimize_team` raises no error and returns a full best-effort roster. -/
theorem optimize_team_no_error_on_infeasible :
    (∀ S, ¬ FeasibleTeam (selectionPool dfTwo [999]) 50000000 1 [999] [999] S)
    ∧ optimize_team dfTwo 50000000 1 [999] [999] = [riderA] := by
  constructor
  · rintro S ⟨-, -, -, h4, h5⟩
    obtain ⟨r, hrS, hrid⟩ := h4 999 (by simp)
    exact h5 999 (by simp) r hrS hrid
  · have hfilter : ((selectionPool dfTwo [999]).enum.sublists).filter
        (selFeasible (selectionPool dfTwo [999]) 50000000 1 [999] [999])
        = [[(0, riderA)], [(1, riderB)]] := rfl
    have hA : teamObj [riderA] = 0 := by
      simp [teamObj, total_expected_points_of_no_races (show riderA.races = [] from rfl)]
    have hB : teamObj [riderB] = 0 := by
      simp [teamObj, total_expected_points_of_no_races (show riderB.races = [] from rfl)]
    have hb : pickBest (fun T => teamObj (T.map Prod.snd)) [[((1 : Nat), riderB)]]
        = some [(1, riderB)] := rfl
    have ha : pickBest (fun T => teamObj (T.map Prod.snd))
        [[((0 : Nat), riderA)], [((1 : Nat), riderB)]] = some [(0, riderA)] := by
      simp only [pickBest, hb]
      split_ifs with h
      · exfalso
        revert h
        show ¬ (teamObj [riderA] < teamObj [riderB])
        rw [hA, hB]
        exact lt_irrefl 0
      · rfl
    unfold optimize_team solveTeam
    rw [hfilter, ha]
    rfl

/-- C2 witness: a one-rider pool with `team_size = 2` admits only the empty
feasible assignment, and the returned roster is empty, not an error. -/
theorem optimize_team_infeasible_empty_witness :
    (∀ T ∈ (selectionPool [riderA] []).enum.sublists,
        selFeasible (selectionPool [riderA] []) 50000000 2 [] [] T = true → T = [])
    ∧ optimize_team [riderA] 50000000 2 [] [] = [] := by
  have h : ∀ T ∈ (selectionPool [riderA] []).enum.sublists,
      selFeasible (selectionPool [riderA] []) 50000000 2 [] [] T = true → T = [] := by
    intro T hT hf
    have hsub : (selectionPool [riderA] []).enum.sublists
        = [[], [(0, riderA)]] := rfl
    rw [hsub] at hT
    rcases List.mem_cons.mp hT with rfl | hT'
    · rfl
    · have hT'' := List.mem_singleton.mp hT'
      subst hT''
      have hfalse : selFeasible (selectionPool [riderA] []) 50000000 2 [] []
          [(0, riderA)] = false := rfl
      rw [hfalse] at hf
      simp at hf
  exact ⟨h, optimize_team_infeasible_returns_empty _ _ _ _ _ h⟩

/-- C1 witness: a feasible two-rider request with `team_size = 1`. -/
theorem optimize_team_optimal_witness :
    (dfW.map Rider.market_rider_id).Nodup
    ∧ (∃ S, FeasibleTeam (selectionPool dfW []) 50000000 1 [] [] S)
    ∧ ((optimize_team dfW 50000000 1 [] []).length = 1
      ∧ teamPrice (optimize_team dfW 50000000 1 [] []) ≤ 50000000
      ∧ (∀ rid ∈ ([] : List Int), ∃ r ∈ optimize_team dfW 50000000 1 [] [],
          r.market_rider_id = rid)
      ∧ (∀ rid ∈ ([] : List Int), ∀ r ∈ optimize_team dfW 50000000 1 [] [],
          r.market_rider_id ≠ rid)
      ∧ (∀ S, FeasibleTeam (selectionPool dfW []) 50000000 1 [] [] S →
          teamObj S ≤ teamObj (optimize_team dfW 50000000 1 [] []))) := by
  have hnd : (dfW.map Rider.market_rider_id).Nodup := by decide
  have hfeas : ∃ S, FeasibleTeam (selectionPool dfW []) 50000000 1 [] [] S := by
    refine ⟨[riderP], ?_, rfl, by decide, by simp, by simp⟩
    show [riderP].Sublist [riderP, riderA]
    exact (List.nil_sublist _).cons₂ _
  exact ⟨hnd, hfeas, optimize_team_optimal dfW 50000000 1 [] [] hnd hfeas⟩

/-- A locked-in id with no matching candidate row adds no constraint. -/
theorem selFeasible_cons_li_unknown {cands : List Rider} {budget : Int}
    {ts : Nat} {li lo : List Int} {rid : Int}
    (h : lockIdx cands rid = none) (T : List (Nat × Rider)) :
    selFeasible cands budget ts (rid :: li) lo T
      = selFeasible cands budget ts li lo T := by
  unfold selFeasible
  simp [List.all_cons, h]

/-- A locked-out id with no matching candidate row adds no constraint. -/
theorem selFeasible_cons_lo_unknown {cands : List Rider} {budget : Int}
    {ts : Nat} {li lo : List Int} {rid : Int}
    (h : lockIdx cands rid = none) (T : List (Nat × Rider)) :
    selFeasible cands budget ts li (rid :: lo) T
      = selFeasible cands budget ts li lo T := by
  unfold selFeasible
  simp [List.all_cons, h]

/-- C10: a forced-include or forced-exclude id that occurs nowhere in the
candidate table is silently ignored: no constraint is added, no error is
raised (the function is total), and the returned roster is the one computed
without that id. -/
theorem optimize_team_ignores_unknown_ids (df : List Rider) (budget : Int)
    (ts : Nat) (li lo : List Int) (rid : Int)
    (h : rid ∉ df.map Rider.market_rider_id) :
    optimize_team df budget ts (rid :: li) lo = optimize_team df budget ts li lo
    ∧ optimize_team df budget ts li (rid :: lo)
      = optimize_team df budget ts li lo := by
  have hdf : ∀ x ∈ df, x.market_rider_id ≠ rid := by
    intro x hx he
    exact h (List.mem_map.mpr ⟨x, hx, he⟩)
  have hpool : selectionPool df (rid :: li) = selectionPool df li := by
    unfold selectionPool
    rw [List.foldl_cons, poolStep_unknown hdf]
  have hidx : lockIdx (selectionPool df li) rid = none := by
    unfold lockIdx
    have hfind : (selectionPool df li).enum.find?
        (fun p => p.2.market_rider_id == rid) = none := by
      rw [List.find?_eq_none]
      intro p hp
      have hget := List.mem_enum_iff_getElem?.mp hp
      obtain ⟨hlt, heq⟩ := List.getElem?_eq_some.mp hget
      have hmem : p.2 ∈ selectionPool df li := heq ▸ List.getElem_mem hlt
      simpa using hdf p.2 (selectionPool_subset hmem)
    rw [hfind]
    rfl
  constructor
  · unfold optimize_team
    rw [hpool]
    unfold solveTeam
    rw [List.filter_congr (fun T _ => selFeasible_cons_li_unknown hidx T)]
  · unfold optimize_team solveTeam
    rw [List.filter_congr (fun T _ => selFeasible_cons_lo_unknown hidx T)]

/-- C10 witness: id 999 occurs nowhere in the one-rider table. -/
theorem optimize_team_ignores_unknown_ids_witness :
    (999 : Int) ∉ [riderA].map Rider.market_rider_id
    ∧ (optimize_team [riderA] 50000000 1 [999] [] = optimize_team [riderA] 50000000 1 [] []
      ∧ optimize_team [riderA] 50000000 1 [] [999]
        = optimize_team [riderA] 50000000 1 [] []) := by
  have h : (999 : Int) ∉ [riderA].map Rider.market_rider_id := by decide
  exact ⟨h, optimize_team_ignores_unknown_ids [riderA] 50000000 1 [] [] 999 h⟩

/-- C6: a competitor with zero participations (no race flags, `Races = 0`)
has zero total projected points, is excluded from the candidate pool unless
its id is forced in, and is added back to the pool when its id is forced in,
contributing 0 to the objective. -/
theorem zero_participation_selection (df : List Rider) (li : List Int)
    (r : Rider) (hnd : (df.map Rider.market_rider_id).Nodup)
    (hr : r ∈ df) (hz : r.races = []) (hn : r.num_races = 0) :
    calculate_total_expected_points r = 0
    ∧ (r.market_rider_id ∉ li → r ∉ selectionPool df li)
    ∧ (r.market_rider_id ∈ li → r ∈ selectionPool df li) := by
  refine ⟨total_expected_points_of_no_races hz, ?_, ?_⟩
  · intro hnotin hmem
    unfold selectionPool at hmem
    rcases foldl_poolStep_mem li _ r hmem with hacc | ⟨-, hin⟩
    · have := (List.mem_filter.mp hacc).2
      simp [hn] at this
    · exact hnotin hin
  · intro hin
    unfold selectionPool
    exact foldl_poolStep_locked hnd li _
      (fun y hy => (List.mem_filter.mp hy).1) r hr hin

/-- C6 witness: a zero-participation rider, forced in by its own id. -/
theorem zero_participation_selection_witness :
    ([riderZ].map Rider.market_rider_id).Nodup
    ∧ riderZ ∈ [riderZ] ∧ riderZ.races = [] ∧ riderZ.num_races = 0
    ∧ (calculate_total_expected_points riderZ = 0
      ∧ (riderZ.market_rider_id ∉ ([201] : List Int) →
          riderZ ∉ selectionPool [riderZ] [201])
      ∧ (riderZ.market_rider_id ∈ ([201] : List Int) →
          riderZ ∈ selectionPool [riderZ] [201])) := by
  have hnd : ([riderZ].map Rider.market_rider_id).Nodup := by simp
  have hr : riderZ ∈ [riderZ] := List.mem_singleton.mpr rfl
  exact ⟨hnd, hr, rfl, rfl,
    zero_participation_selection [riderZ] [201] riderZ hnd hr rfl rfl⟩

/-- C3 witness: a participating rider in the top tier. -/
theorem calculate_expected_points_tiers_witness :
    riderCobbled.race .rondeVanVlaanderen = true
    ∧ 7 ≤ calculate_race_score riderCobbled .rondeVanVlaanderen
    ∧ calculate_expected_points riderCobbled .rondeVanVlaanderen = 28 := by
  have hr : riderCobbled.race .rondeVanVlaanderen = true := by
    simp [Rider.race, riderCobbled]
  have h9 : calculate_race_score riderCobbled .rondeVanVlaanderen = 9 := by
    rw [calculate_race_score_formula hr]
    norm_num [RACE_QUALITY_MAP, Rider.q, riderCobbled]
  have h7 : 7 ≤ calculate_race_score riderCobbled .rondeVanVlaanderen := by
    rw [h9]
    norm_num
  exact ⟨hr, h7,
    (((calculate_expected_points_tiers riderCobbled .rondeVanVlaanderen).2 hr).2.1) h7⟩

/-- C9 witness: a positively priced rider and a zero-priced rider. -/
theorem calculate_value_score_spec_witness :
    ((0 : Int) < riderP.price
      ∧ calculate_value_score riderP
        = calculate_total_expected_points riderP / riderP.price_m)
    ∧ (riderFree.price = 0 ∧ calculate_value_score riderFree = 0) := by
  constructor
  · exact ⟨by decide, (calculate_value_score_spec riderP).1 (by decide)⟩
  · exact ⟨rfl, (calculate_value_score_spec riderFree).2 rfl⟩

/-- `sortDesc` is a permutation of its input. -/
theorem sortDesc_perm (f : Rider → ℚ) (l : List Rider) : (sortDesc f l).Perm l :=
  List.perm_insertionSort _ _

/-- `sortDesc` sorts descending by the key. -/
theorem sortDesc_pairwise (f : Rider → ℚ) (l : List Rider) :
    (sortDesc f l).Pairwise (fun a b => f b ≤ f a) := by
  haveI : IsTotal Rider (fun a b => f b ≤ f a) := ⟨fun a b => le_total (f b) (f a)⟩
  haveI : IsTrans Rider (fun a b => f b ≤ f a) :=
    ⟨fun a b c hab hbc => le_trans hbc hab⟩
  exact List.sorted_insertionSort _ l

/-- Indices in an enumeration are below the list length. -/
theorem mem_enum_fst_lt {α : Type} {l : List α} {p : Nat × α} (h : p ∈ l.enum) :
    p.1 < l.length := by
  obtain ⟨hlt, -⟩ := List.getElem?_eq_some.mp (List.mem_enum_iff_getElem?.mp h)
  exact hlt

/-- Base points of the first captaincy loop are the expected points of the
first three sorted riders. -/
theorem kopmanTop_map_base (race : Race) (s : List Rider) :
    (kopmanTop race s).map KopmanEntry.base_points
      = (s.take 3).map (fun r => calculate_expected_points r race) := by
  unfold kopmanTop
  rw [List.map_map]
  conv_rhs => rw [← List.enum_map_snd (s.take 3), List.map_map]
  rfl

/-- Base points of the second captaincy loop are the expected points of the
remaining sorted riders. -/
theorem kopmanRest_map_base (race : Race) (s : List Rider) :
    (kopmanRest race s).map KopmanEntry.base_points
      = (s.drop 3).map (fun r => calculate_expected_points r race) := by
  unfold kopmanRest
  rw [List.map_map]
  conv_rhs => rw [← List.enum_map_snd (s.drop 3), List.map_map]
  rfl

/-- Ranks of the first captaincy loop. -/
theorem kopmanTop_map_rank (race : Race) (s : List Rider) :
    (kopmanTop race s).map KopmanEntry.rank
      = (List.range (s.take 3).length).map (· + 1) := by
  unfold kopmanTop
  rw [List.map_map]
  conv_rhs => rw [← List.enum_map_fst (s.take 3), List.map_map]
  rfl

/-- Ranks of the second captaincy loop. -/
theorem kopmanRest_map_rank (race : Race) (s : List Rider) :
    (kopmanRest race s).map KopmanEntry.rank
      = (List.range (s.drop 3).length).map (· + 4) := by
  unfold kopmanRest
  rw [List.map_map]
  conv_rhs => rw [← List.enum_map_fst (s.drop 3), List.map_map]
  apply List.map_congr_left
  intro p hp
  show p.1 + 3 + 1 = p.1 + 4
  omega

/-- Identity/base pairs of the first captaincy loop. -/
theorem kopmanTop_map_pair (race : Race) (s : List Rider) :
    (kopmanTop race s).map (fun e => (e.market_rider_id, e.base_points))
      = (s.take 3).map
          (fun r => (r.market_rider_id, calculate_expected_points r race)) := by
  unfold kopmanTop
  rw [List.map_map]
  conv_rhs => rw [← List.enum_map_snd (s.take 3), List.map_map]
  rfl

/-- Identity/base pairs of the second captaincy loop. -/
theorem kopmanRest_map_pair (race : Race) (s : List Rider) :
    (kopmanRest race s).map (fun e => (e.market_rider_id, e.base_points))
      = (s.drop 3).map
          (fun r => (r.market_rider_id, calculate_expected_points r race)) := by
  unfold kopmanRest
  rw [List.map_map]
  conv_rhs => rw [← List.enum_map_snd (s.drop 3), List.map_map]
  rfl

/-- Entries of the first captaincy loop: rank between 1 and 3, dict
multiplier, boosted points are base times multiplier. -/
theorem kopmanTop_fields {race : Race} {s : List Rider} {e : KopmanEntry}
    (he : e ∈ kopmanTop race s) :
    1 ≤ e.rank ∧ e.rank ≤ 3 ∧ e.multiplier = KOPMAN_MULTIPLIERS e.rank
    ∧ e.boosted_points = e.base_points * e.multiplier := by
  unfold kopmanTop at he
  obtain ⟨p, hp, he'⟩ := List.mem_map.mp he
  subst he'
  have hlt : p.1 < (s.take 3).length := mem_enum_fst_lt hp
  have h3 : (s.take 3).length ≤ 3 := by
    rw [List.length_take]
    exact min_le_left _ _
  refine ⟨?_, ?_, rfl, rfl⟩
  · show 1 ≤ p.1 + 1
    omega
  · show p.1 + 1 ≤ 3
    omega

/-- Entries of the second captaincy loop: rank at least 4, multiplier 1,
boosted points are the base points. -/
theorem kopmanRest_fields {race : Race} {s : List Rider} {e : KopmanEntry}
    (he : e ∈ kopmanRest race s) :
    4 ≤ e.rank ∧ e.multiplier = 1
    ∧ e.boosted_points = e.base_points * e.multiplier := by
  unfold kopmanRest at he
  obtain ⟨p, hp, he'⟩ := List.mem_map.mp he
  subst he'
  refine ⟨?_, rfl, ?_⟩
  · show 4 ≤ p.1 + 3 + 1
    omega
  · show calculate_expected_points p.2 race = calculate_expected_points p.2 race * 1
    rw [mul_one]

/-- C7: for every roster and event, the captaincy assignment lists the
participating roster members in descending order of that event's projected
points with ranks 1, 2, 3, ...; ranks 1, 2, 3 carry multipliers 3.0, 2.5,
2.0 and every rank at least 4 carries exactly 1.0 (ties included), and each
entry's boosted points are its base projected points times its
multiplier. -/
theorem kopman_strategy_race_spec (team : List Rider) (race : Race) :
    ((calculate_kopman_strategy_race team race).map
        KopmanEntry.base_points).Pairwise (fun a b => b ≤ a)
    ∧ (calculate_kopman_strategy_race team race).map KopmanEntry.rank
        = List.range' 1 (calculate_kopman_strategy_race team race).length
    ∧ (∀ e ∈ calculate_kopman_strategy_race team race,
        e.multiplier = (if e.rank = 1 then 3 else if e.rank = 2 then 5/2
          else if e.rank = 3 then (2 : ℚ) else 1)
        ∧ e.boosted_points = e.base_points * e.multiplier)
    ∧ ((calculate_kopman_strategy_race team race).map
          (fun e => (e.market_rider_id, e.base_points))).Perm
        ((team.filter (fun r => r.race race)).map
          (fun r => (r.market_rider_id, calculate_expected_points r race))) := by
  by_cases hemp : (team.filter (fun r => r.race race)).isEmpty
  · have hnil : calculate_kopman_strategy_race team race = [] := by
      simp [calculate_kopman_strategy_race, hemp]
    have hfil : team.filter (fun r => r.race race) = [] :=
      List.isEmpty_iff.mp hemp
    rw [hnil, hfil]
    simp
  · have heq : calculate_kopman_strategy_race team race
        = kopmanTop race (sortDesc (fun r => calculate_expected_points r race)
            (team.filter (fun r => r.race race)))
          ++ kopmanRest race (sortDesc (fun r => calculate_expected_points r race)
            (team.filter (fun r => r.race race))) := by
      simp [calculate_kopman_strategy_race, hemp]
    set racing := team.filter (fun r => r.race race) with hracing
    set sorted := sortDesc (fun r => calculate_expected_points r race) racing
      with hsorted
    rw [heq]
    have hbase : (kopmanTop race sorted ++ kopmanRest race sorted).map
        KopmanEntry.base_points
        = sorted.map (fun r => calculate_expected_points r race) := by
      rw [List.map_append, kopmanTop_map_base, kopmanRest_map_base,
        ← List.map_append, List.take_append_drop]
    refine ⟨?_, ?_, ?_, ?_⟩
    · rw [hbase, List.pairwise_map]
      exact sortDesc_pairwise _ racing
    · have hlt : (kopmanTop race sorted).length = (sorted.take 3).length := by
        unfold kopmanTop
        rw [List.length_map, List.enum_length]
      have hlr : (kopmanRest race sorted).length = (sorted.drop 3).length := by
        unfold kopmanRest
        rw [List.length_map, List.enum_length]
      rw [List.map_append, kopmanTop_map_rank, kopmanRest_map_rank,
        List.length_append, hlt, hlr]
      rcases le_or_lt sorted.length 3 with h3 | h3
      · have hd : sorted.drop 3 = [] := List.drop_eq_nil_of_le h3
        rw [hd]
        simp only [List.length_nil, List.range_zero, List.map_nil,
          List.append_nil, Nat.add_zero]
        rw [List.range'_eq_map_range]
        apply List.map_congr_left
        intro x hx
        omega
      · have ht : (sorted.take 3).length = 3 := by
          rw [List.length_take]
          omega
        have hd : (sorted.drop 3).length = sorted.length - 3 := List.length_drop 3 sorted
        rw [ht, hd]
        have h1 : (List.range 3).map (· + 1) = List.range' 1 3 := by decide
        have h2 : (List.range (sorted.length - 3)).map (· + 4)
            = List.range' 4 (sorted.length - 3) := by
          rw [List.range'_eq_map_range]
          apply List.map_congr_left
          intro x hx
          omega
        rw [h1, h2]
        have happ := List.range'_append 1 3 (sorted.length - 3) 1
        simpa [Nat.add_comm] using happ
    · intro e he
      rcases List.mem_append.mp he with h | h
      · obtain ⟨h1, h3, hm, hb⟩ := kopmanTop_fields h
        refine ⟨?_, hb⟩
        rw [hm]
        have : e.rank = 1 ∨ e.rank = 2 ∨ e.rank = 3 := by omega
        rcases this with h' | h' | h' <;> rw [h'] <;> norm_num [KOPMAN_MULTIPLIERS]
      · obtain ⟨h4, hm, hb⟩ := kopmanRest_fields h
        refine ⟨?_, hb⟩
        rw [hm, if_neg (by omega), if_neg (by omega), if_neg (by omega)]
    · rw [List.map_append, kopmanTop_map_pair, kopmanRest_map_pair,
        ← List.map_append, List.take_append_drop]
      exact (sortDesc_perm _ racing).map _

/-- Every race is in the catalog, which has no duplicates. -/
theorem raceCatalog_mem_nodup :
    (∀ race : Race, race ∈ raceCatalog) ∧ raceCatalog.Nodup := by
  constructor
  · intro race
    cases race <;> decide
  · decide

/-- C8: when no roster member participates in an event, that event's
captaincy assignment is the empty list (not an error), its boosted-points
sum is 0, and the season boosted total equals the sum over the other
events alone, so the event contributes 0 to the season total and bonus. -/
theorem kopman_empty_event (team : List Rider) (race : Race)
    (h : ∀ r ∈ team, race ∉ r.races) :
    calculate_kopman_strategy_race team race = []
    ∧ ((calculate_kopman_strategy_race team race).map
        KopmanEntry.boosted_points).sum = 0
    ∧ calculate_team_total_with_kopmannen (calculate_kopman_strategy team)
        = ((raceCatalog.erase race).map (fun e =>
            ((calculate_kopman_strategy_race team e).map
              KopmanEntry.boosted_points).sum)).sum := by
  have hfil : team.filter (fun r => r.race race) = [] := by
    apply List.filter_eq_nil_iff.mpr
    intro r hr
    simp [Rider.race, h r hr]
  have hnil : calculate_kopman_strategy_race team race = [] := by
    simp [calculate_kopman_strategy_race, hfil]
  refine ⟨hnil, by rw [hnil]; simp, ?_⟩
  have htot : calculate_team_total_with_kopmannen (calculate_kopman_strategy team)
      = (raceCatalog.map (fun e =>
          ((calculate_kopman_strategy_race team e).map
            KopmanEntry.boosted_points).sum)).sum := by
    unfold calculate_team_total_with_kopmannen calculate_kopman_strategy
    rw [List.map_map]
    rfl
  rw [htot]
  have hperm : raceCatalog.Perm (race :: raceCatalog.erase race) :=
    List.perm_cons_erase (raceCatalog_mem_nodup.1 race)
  rw [(hperm.map _).sum_eq]
  simp [hnil]

/-- C8 witness: the empty roster participates in nothing. -/
theorem kopman_empty_event_witness :
    (∀ r ∈ ([] : List Rider), Race.omloop ∉ r.races)
    ∧ (calculate_kopman_strategy_race [] Race.omloop = []
      ∧ ((calculate_kopman_strategy_race [] Race.omloop).map
          KopmanEntry.boosted_points).sum = 0
      ∧ calculate_team_total_with_kopmannen (calculate_kopman_strategy [])
          = ((raceCatalog.erase Race.omloop).map (fun e =>
              ((calculate_kopman_strategy_race [] e).map
                KopmanEntry.boosted_points).sum)).sum) := by
  have h : ∀ r ∈ ([] : List Rider), Race.omloop ∉ r.races := by
    intro r hr
    simp at hr
  exact ⟨h, kopman_empty_event [] Race.omloop h⟩

/-- C7 witness: the single participant of a one-rider roster is rank-1
kopman with the dict multiplier and boosted points base times multiplier. -/
theorem kopman_strategy_race_spec_witness :
    (⟨1, "P", 301, KOPMAN_MULTIPLIERS 1,
        calculate_expected_points riderP .parisRoubaix,
        calculate_expected_points riderP .parisRoubaix * KOPMAN_MULTIPLIERS 1⟩
        : KopmanEntry)
      ∈ calculate_kopman_strategy_race [riderP] .parisRoubaix
    ∧ ((⟨1, "P", 301, KOPMAN_MULTIPLIERS 1,
        calculate_expected_points riderP .parisRoubaix,
        calculate_expected_points riderP .parisRoubaix * KOPMAN_MULTIPLIERS 1⟩
        : KopmanEntry).multiplier
        = (if (1 : Nat) = 1 then 3 else if (1 : Nat) = 2 then 5/2
            else if (1 : Nat) = 3 then (2 : ℚ) else 1)
      ∧ calculate_expected_points riderP .parisRoubaix * KOPMAN_MULTIPLIERS 1
        = calculate_expected_points riderP .parisRoubaix * KOPMAN_MULTIPLIERS 1) := by
  have hL : calculate_kopman_strategy_race [riderP] .parisRoubaix
      = [⟨1, "P", 301, KOPMAN_MULTIPLIERS 1,
          calculate_expected_points riderP .parisRoubaix,
          calculate_expected_points riderP .parisRoubaix * KOPMAN_MULTIPLIERS 1⟩] := rfl
  have hmem : (⟨1, "P", 301, KOPMAN_MULTIPLIERS 1,
      calculate_expected_points riderP .parisRoubaix,
      calculate_expected_points riderP .parisRoubaix * KOPMAN_MULTIPLIERS 1⟩
      : KopmanEntry) ∈ calculate_kopman_strategy_race [riderP] .parisRoubaix := by
    rw [hL]
    exact List.mem_singleton.mpr rfl
  have hspec := (kopman_strategy_race_spec [riderP] .parisRoubaix).2.2.1 _ hmem
  exact ⟨hmem, hspec.1, hspec.2⟩
